import Mathlib

/-!
Verification of the measurement and statistics engine of
`github.com/thekondor/s3-simple-benchmarker` (file `main.go`).

The Go program runs N upload trials and N download trials against an
S3-compatible backend, collects per-trial durations (`time.Duration`,
an `int64` count of nanoseconds) and speeds (`float64`, MB/s), and
reports averages and 90th percentiles.

Embedding conventions:
* `time.Duration` values are modelled as `Int` (nanoseconds).
* Go `float64` speed values are modelled by `GoFloat`: an exact
  rational for ordinary division, plus the IEEE special results
  `+Inf`, `-Inf` and `NaN` that Go float division produces on a zero
  divisor.  Rounding of finite float results is idealized to exact
  rational arithmetic; the claims under study concern the presence or
  absence of a zero-elapsed guard, not rounding error.
* `log.Fatalf` (which aborts the whole process, so no partial result
  is ever produced) is modelled as `Except.error`.
* The storage backend is an oracle: uploads write into an association
  list from object key to payload bytes, downloads read from a
  `getObject` oracle; per-trial random payloads and clock readings are
  oracle functions of the trial index.
-/

/-- Decidable equality for `Except`, used to evaluate concrete runs of the
embedded program in witnesses and counterexamples. -/
instance {ε α : Type} [DecidableEq ε] [DecidableEq α] : DecidableEq (Except ε α) := fun a b =>
  match a, b with
  | .ok x, .ok y => decidable_of_iff (x = y) (by simp)
  | .error x, .error y => decidable_of_iff (x = y) (by simp)
  | .ok _, .error _ => isFalse (by intro h; cases h)
  | .error _, .ok _ => isFalse (by intro h; cases h)

/-- Result of a Go `float64` computation: an exact rational for ordinary
division, or one of the IEEE special values that division by zero yields. -/
inductive GoFloat : Type where
  | finite (q : ℚ)
  | posInf
  | negInf
  | nan
deriving DecidableEq

/-- Model of Go `time.Duration.Seconds()`: the duration in nanoseconds
divided by 1e9. -/
def durationSeconds (d : Int) : ℚ := (d : ℚ) / 1000000000

/-- Model of the Go speed computation
`float64(sizeBytes) / duration.Seconds() / 1024 / 1024` (MB/s), appearing in
both `uploadFiles` (main.go:145) and `downloadFiles` (main.go:180).
Go float division by zero does not panic: with a positive numerator it
yields `+Inf`, with a negative one `-Inf`, and `0/0` yields `NaN`.
Division of an infinity by the finite constants 1024 leaves it infinite. -/
def speedMBps (sizeBytes elapsedNs : Int) : GoFloat :=
  if elapsedNs = 0 then
    if 0 < sizeBytes then .posInf else if sizeBytes < 0 then .negInf else .nan
  else
    .finite ((sizeBytes : ℚ) / durationSeconds elapsedNs / 1024 / 1024)

/-- Model of inserting an element into an already-sorted prefix, as Go's
`sort.Slice` does, where invoking the comparator may panic (the `default`
branch of the type switch in `calculateP90` panics with "Unsupported type");
a panicking comparator is a comparator returning `Except.error`. -/
def insertE {α : Type} (less : α → α → Except String Bool) (a : α) :
    List α → Except String (List α)
  | [] => .ok [a]
  | b :: l =>
    match less a b with
    | .error e => .error e
    | .ok true => .ok (a :: b :: l)
    | .ok false =>
      match insertE less a l with
      | .error e => .error e
      | .ok t => .ok (b :: t)

/-- Model of `sort.Slice values less`: a comparison sort driven by the
(possibly panicking) comparator.  The comparator is consulted if and only if
the slice has at least two elements, exactly as in Go's sort. -/
def sortE {α : Type} (less : α → α → Except String Bool) :
    List α → Except String (List α)
  | [] => .ok []
  | a :: l =>
    match sortE less l with
    | .error e => .error e
    | .ok t => insertE less a t

/-- The `case []time.Duration` branch of the type switch inside
`calculateP90`'s comparator (main.go:110): an ordinary `<` on durations,
which never panics. -/
def durationLess (a b : Int) : Except String Bool := .ok (decide (a < b))

/-- The `default` branch of the type switch inside `calculateP90`'s
comparator (main.go:115): `panic("Unsupported type")`. -/
def unsupportedLess {α : Type} : α → α → Except String Bool :=
  fun _ _ => .error "Unsupported type"

/-- Model of `calculateP90` (main.go:107-120).  `sort.Slice` sorts the
caller's slice **in place**, so the function's observable behaviour is the
pair (selected value, post-state of the slice); we return both.  The
selection index is `p90Index := int(0.9 * float64(len(values)))`
(main.go:118), which equals `9 * n / 10` in exact integer arithmetic for
every length `n` below about `8 * 10^14` (far beyond any feasible slice):
the `float64` constant `0.9` exceeds `9/10` by `2^-53/5`, and truncation of
the rounded product agrees with `floor(9n/10)` throughout that range.
Indexing an empty slice panics (index out of range), modelled as an error. -/
def calculateP90 {α : Type} (less : α → α → Except String Bool) (values : List α) :
    Except String (α × List α) :=
  match sortE less values with
  | .error e => .error e
  | .ok sorted =>
    match sorted[9 * values.length / 10]? with
    | some v => .ok (v, sorted)
    | none => .error "index out of range"

/-- Two's-complement wraparound to a signed 64-bit integer, the semantics
of Go `int64` (and hence `time.Duration`) addition overflow: the result is
congruent to `x` modulo `2 ^ 64` and lies in `[-2 ^ 63, 2 ^ 63)`.  The
literals are `2 ^ 63 = 9223372036854775808` and
`2 ^ 64 = 18446744073709551616`. -/
def wrap64 (x : Int) : Int :=
  (x + 9223372036854775808) % 18446744073709551616 - 9223372036854775808

/-- Model of `calculateAverage` (main.go:99-105): sum the durations with a
running `totalTime` accumulator of type `time.Duration` (an `int64`, so
each addition wraps two's-complement, modelled by `wrap64`), then divide by
the count.  Go `int64` division truncates toward zero, which is `Int.tdiv`
(the quotient of an in-range total by a positive count is again in range,
so the division itself never wraps); Go integer division by zero panics,
modelled as an error. -/
def calculateAverage (times : List Int) : Except String Int :=
  if times.length = 0 then .error "integer divide by zero"
  else .ok (Int.tdiv (times.foldl (fun acc t => wrap64 (acc + t)) 0) (times.length : Int))

/-- The ascending sort of a duration series, as `calculateP90` produces it:
insertion sort driven by the strict `<` comparator of the type switch. -/
def sortedSeries (l : List Int) : List Int :=
  List.insertionSort (fun a b : Int => a < b) l

theorem insertE_durationLess (a : Int) (l : List Int) :
    insertE durationLess a l = .ok (List.orderedInsert (fun a b : Int => a < b) a l) := by
  induction l with
  | nil => rfl
  | cons b t ih =>
    by_cases h : a < b
    · simp [insertE, durationLess, List.orderedInsert, h]
    · simp [insertE, durationLess, List.orderedInsert, h, ih]

theorem sortE_durationLess (l : List Int) :
    sortE durationLess l = .ok (sortedSeries l) := by
  induction l with
  | nil => rfl
  | cons a t ih =>
    simp [sortE, ih, sortedSeries, List.insertionSort, insertE_durationLess]

theorem sortedSeries_perm (l : List Int) : (sortedSeries l).Perm l :=
  List.perm_insertionSort _ l

theorem sorted_orderedInsert_lt (a : Int) (l : List Int)
    (h : l.Sorted (· ≤ ·)) :
    (List.orderedInsert (fun a b : Int => a < b) a l).Sorted (· ≤ ·) := by
  induction l with
  | nil => simp [List.orderedInsert]
  | cons b t ih =>
    rw [List.sorted_cons] at h
    by_cases hab : a < b
    · simp only [List.orderedInsert, if_pos hab, List.sorted_cons]
      refine ⟨?_, h⟩
      intro x hx
      rcases List.mem_cons.1 hx with rfl | hx
      · exact le_of_lt hab
      · exact le_trans (le_of_lt hab) (h.1 x hx)
    · simp only [List.orderedInsert, if_neg hab, List.sorted_cons]
      refine ⟨?_, ih h.2⟩
      intro x hx
      rcases (List.mem_orderedInsert _).1 hx with rfl | hx
      · exact le_of_not_lt hab
      · exact h.1 x hx

theorem sortedSeries_sorted (l : List Int) : (sortedSeries l).Sorted (· ≤ ·) := by
  induction l with
  | nil => simp [sortedSeries, List.insertionSort]
  | cons a t ih => exact sorted_orderedInsert_lt a _ ih


/-- Fuel-driven little-endian decimal digits of a natural number (empty for
zero); the fuel argument makes the definition structurally recursive and
hence evaluable by the kernel. -/
def natDigitsAux : Nat → Nat → List Nat
  | 0, _ => []
  | f + 1, n => if n = 0 then [] else n % 10 :: natDigitsAux f (n / 10)

theorem natDigitsAux_eq_digits :
    ∀ (fuel n : Nat), n ≤ fuel → natDigitsAux fuel n = Nat.digits 10 n := by
  intro fuel
  induction fuel with
  | zero =>
    intro n hn
    interval_cases n
    simp [natDigitsAux]
  | succ f ih =>
    intro n hn
    by_cases h0 : n = 0
    · subst h0; simp [natDigitsAux]
    · simp only [natDigitsAux, if_neg h0]
      rw [Nat.digits_def' (by norm_num : 1 < 10) (Nat.pos_of_ne_zero h0)]
      congr 1
      exact ih (n / 10) (by omega)

/-- Model of the decimal rendering performed by the `%d` verb of
`fmt.Sprintf` for a non-negative integer: the decimal digits of `n`, most
significant first (and `"0"` for zero). -/
def natDecimal (n : Nat) : String :=
  if n = 0 then "0"
  else String.mk (((natDigitsAux n n).map Nat.digitChar).reverse)

/-- Model of `fmt.Sprintf("file-%d.dat", i)` at main.go:131, the object key
written by upload trial `i`. -/
def uploadObjectKey (i : Nat) : String := "file-" ++ natDecimal i ++ ".dat"

/-- Model of `fmt.Sprintf("file-%d.dat", i)` at main.go:160, the object key
fetched by download trial `i`. -/
def downloadObjectKey (i : Nat) : String := "file-" ++ natDecimal i ++ ".dat"

theorem digitChar_inj_lt :
    ∀ a < 10, ∀ b < 10, Nat.digitChar a = Nat.digitChar b → a = b := by decide

theorem map_digitChar_inj :
    ∀ (l₁ l₂ : List Nat), (∀ x ∈ l₁, x < 10) → (∀ x ∈ l₂, x < 10) →
      l₁.map Nat.digitChar = l₂.map Nat.digitChar → l₁ = l₂ := by
  intro l₁
  induction l₁ with
  | nil => intro l₂ _ _ h; cases l₂ <;> simp_all
  | cons a t ih =>
    intro l₂ h₁ h₂ h
    cases l₂ with
    | nil => simp_all
    | cons b t₂ =>
      simp only [List.map, List.cons.injEq] at h
      have ha : a < 10 := h₁ a (by simp)
      have hb : b < 10 := h₂ b (by simp)
      have : a = b := digitChar_inj_lt a ha b hb h.1
      subst this
      have : t = t₂ := ih t₂ (fun x hx => h₁ x (by simp [hx]))
        (fun x hx => h₂ x (by simp [hx])) h.2
      simp [this]

theorem digits_rendering_ne_zero_char (n : Nat) (hn : n ≠ 0) :
    ((Nat.digits 10 n).map Nat.digitChar).reverse ≠ ['0'] := by
  intro hcontr
  have hrev := congrArg List.reverse hcontr
  simp only [List.reverse_reverse] at hrev
  have : Nat.digits 10 n = [0] := by
    refine map_digitChar_inj _ _ (fun x hx => Nat.digits_lt_base (by norm_num) hx) ?_ ?_
    · intro x hx; simp at hx; omega
    · simpa using hrev
  have h0 := congrArg (Nat.ofDigits 10) this
  rw [Nat.ofDigits_digits] at h0
  simp [Nat.ofDigits] at h0
  exact hn h0

theorem natDecimal_injective : Function.Injective natDecimal := by
  intro m n h
  unfold natDecimal at h
  have hd : ∀ k : Nat, natDigitsAux k k = Nat.digits 10 k := fun k =>
    natDigitsAux_eq_digits k k le_rfl
  by_cases hm : m = 0 <;> by_cases hn : n = 0
  · omega
  · rw [if_pos hm, if_neg hn, hd] at h
    exfalso
    apply digits_rendering_ne_zero_char n hn
    have := congrArg String.data h
    exact this.symm
  · rw [if_neg hm, if_pos hn, hd] at h
    exfalso
    apply digits_rendering_ne_zero_char m hm
    have := congrArg String.data h
    exact this
  · rw [if_neg hm, if_neg hn, hd, hd] at h
    have hdata : ((Nat.digits 10 m).map Nat.digitChar).reverse
        = ((Nat.digits 10 n).map Nat.digitChar).reverse := congrArg String.data h
    have hrev := congrArg List.reverse hdata
    simp only [List.reverse_reverse] at hrev
    have := map_digitChar_inj (Nat.digits 10 m) (Nat.digits 10 n)
      (fun x hx => Nat.digits_lt_base (by norm_num) hx)
      (fun x hx => Nat.digits_lt_base (by norm_num) hx) hrev
    exact Nat.digits.injective 10 this

theorem uploadObjectKey_injective : Function.Injective uploadObjectKey := by
  intro i j h
  unfold uploadObjectKey at h
  have hdata := congrArg String.data h
  have hexp : ∀ k : Nat, ("file-" ++ natDecimal k ++ ".dat").data
      = "file-".data ++ ((natDecimal k).data ++ ".dat".data) := by
    intro k
    simp
  rw [hexp i, hexp j] at hdata
  have h₁ := List.append_cancel_left hdata
  have h₂ := List.append_cancel_right h₁
  have : natDecimal i = natDecimal j := by
    cases hi : natDecimal i
    cases hj : natDecimal j
    rw [hi, hj] at h₂
    exact congrArg String.mk (by simpa using h₂)
  exact natDecimal_injective this

/-- The state of the bucket: an association list from object key to payload
bytes (each byte a `Nat`), newest write first, so `List.lookup` returns the
most recent write for a key, matching S3 overwrite semantics. -/
abbrev Store := List (String × List Nat)

/-- Model of the loop body sequence of `uploadFiles` (main.go:122-151),
running trials `i, i+1, ..., i+k-1`.  Oracles: `dataOf i` is the fresh
random payload `rand.Read` puts into the shared buffer for trial `i` (in
Go its length is always `fileSize`, the size of the buffer), `putErr i` is
the transport error `PutObject` reports for trial `i` (if any), and
`elapsed i` is the duration `time.Since(startTime)` observes for trial `i`.
Each successful trial appends `duration` to `uploadTimes` and
`float64(fileSize) / duration.Seconds() / 1024 / 1024` to `uploadSpeeds`;
any `PutObject` error is fatal (`log.Fatalf`), aborting the whole run. -/
def uploadFrom (dataOf : Nat → List Nat) (putErr : Nat → Option String)
    (elapsed : Nat → Int) (fileSize : Int) :
    Nat → Nat → Store → Except String (List Int × List GoFloat × Store)
  | _, 0, store => .ok ([], [], store)
  | i, k + 1, store =>
    match putErr i with
    | some e => .error ("Unable to upload " ++ uploadObjectKey i ++ ": " ++ e)
    | none =>
      let duration := elapsed i
      let uploadSpeed := speedMBps fileSize duration
      match uploadFrom dataOf putErr elapsed fileSize (i + 1) k
        ((uploadObjectKey i, dataOf i) :: store) with
      | .error e => .error e
      | .ok (ts, sps, st) => .ok (duration :: ts, uploadSpeed :: sps, st)

/-- Model of `uploadFiles` (main.go:122-151): trials `1 .. numFiles` against
an initially empty bucket. -/
def uploadFiles (dataOf : Nat → List Nat) (putErr : Nat → Option String)
    (elapsed : Nat → Int) (fileSize : Int) (numFiles : Nat) :
    Except String (List Int × List GoFloat × Store) :=
  uploadFrom dataOf putErr elapsed fileSize 1 numFiles []

/-- The writes performed by upload trials `i .. i+k-1`, newest last; a
successful `uploadFrom` prepends exactly these (newest first) to the store. -/
def writesFrom (dataOf : Nat → List Nat) (i : Nat) : Nat → Store
  | 0 => []
  | k + 1 => writesFrom dataOf (i + 1) k ++ [(uploadObjectKey i, dataOf i)]

/-- Model of `GetObject` followed by draining the payload with `io.Copy`
when the backend is in state `store`: the bytes of the stored object, or an
error when no such key exists. -/
def storeGet (store : Store) (key : String) : Except String (List Nat) :=
  match store.lookup key with
  | some payload => .ok payload
  | none => .error "NoSuchKey"

/-- Model of the loop body sequence of `downloadFiles` (main.go:153-187),
running trials `i, i+1, ..., i+k-1`.  `getObject` is the backend oracle for
`GetObject` plus the `io.Copy` drain (the received payload bytes, or a
transport error); `elapsed i` is `time.Since(startTime)` for trial `i`.
The received byte count `payloadSize` is checked against
`expectedFileSize`; a mismatch, like a transport error, is fatal
(`log.Fatalf`), aborting the whole run with no partial series.  On success
the trial appends `duration` to `downloadTimes` and
`float64(payloadSize) / duration.Seconds() / 1024 / 1024` (computed from
the actually received byte count) to `downloadSpeeds`. -/
def downloadFrom (getObject : String → Except String (List Nat))
    (elapsed : Nat → Int) (expectedFileSize : Int) :
    Nat → Nat → Except String (List Int × List GoFloat)
  | _, 0 => .ok ([], [])
  | i, k + 1 =>
    match getObject (downloadObjectKey i) with
    | .error e => .error ("Unable to download " ++ downloadObjectKey i ++ ": " ++ e)
    | .ok payload =>
      let payloadSize : Int := payload.length
      if payloadSize ≠ expectedFileSize then
        .error ("Unmatched sizes: actual=" ++ toString payloadSize
          ++ ", expected=" ++ toString expectedFileSize)
      else
        let duration := elapsed i
        let downloadSpeed := speedMBps payloadSize duration
        match downloadFrom getObject elapsed expectedFileSize (i + 1) k with
        | .error e => .error e
        | .ok (ts, sps) => .ok (duration :: ts, downloadSpeed :: sps)

/-- Model of `downloadFiles` (main.go:153-187): trials `1 .. numFiles`. -/
def downloadFiles (getObject : String → Except String (List Nat))
    (elapsed : Nat → Int) (expectedFileSize : Int) (numFiles : Nat) :
    Except String (List Int × List GoFloat) :=
  downloadFrom getObject elapsed expectedFileSize 1 numFiles

/-- Model of the only configuration validation `main` performs
(main.go:46-49): it rejects the run exactly when one of endpoint, access
key, secret key or bucket name is empty.  The `-trials` flag value is not
inspected anywhere. -/
def configMissing (endpoint accessKey secretKey bucketName : String) : Bool :=
  endpoint = "" || accessKey = "" || secretKey = "" || bucketName = ""

theorem foldl_add_eq_sum (l : List Int) :
    ∀ a : Int, l.foldl (fun acc t => acc + t) a = a + l.sum := by
  induction l with
  | nil => simp
  | cons b t ih =>
    intro a
    simp only [List.foldl, ih, List.sum_cons]
    ring

theorem sortE_error_cons {α : Type} (less : α → α → Except String Bool)
    (a : α) (l : List α) (e : String) (h : sortE less l = .error e) :
    sortE less (a :: l) = .error e := by
  simp only [sortE, h]

theorem sortE_unsupportedLess {α : Type} (a b : α) (rest : List α) :
    sortE unsupportedLess (a :: b :: rest) = .error "Unsupported type" := by
  induction rest generalizing a b with
  | nil => rfl
  | cons c t ih => exact sortE_error_cons unsupportedLess a _ _ (ih b c)

/-- C1: for every non-empty duration series, `calculateP90` selects the
element at 0-based index `floor(0.9 * count)` of the series sorted
ascending; consequently the result is an element of the original series (a
selection, not an interpolation), for count = 10 it is the maximum (last
sorted) value, and for a single-element series it is that element. -/
theorem calculateP90_selects_floor_index (l : List Int) (h : l ≠ []) :
    ∃ v,
      (calculateP90 durationLess l).map Prod.fst = .ok v ∧
      (sortedSeries l)[9 * l.length / 10]? = some v ∧
      (sortedSeries l).Sorted (· ≤ ·) ∧
      (sortedSeries l).Perm l ∧
      v ∈ l ∧
      (l.length = 10 → ∀ x ∈ l, x ≤ v) ∧
      (∀ a, l = [a] → v = a) := by
  have hperm := sortedSeries_perm l
  have hlen : (sortedSeries l).length = l.length := hperm.length_eq
  have hpos : 0 < l.length := List.length_pos.mpr h
  have hidx : 9 * l.length / 10 < (sortedSeries l).length := by
    rw [hlen]; omega
  refine ⟨(sortedSeries l).get ⟨9 * l.length / 10, hidx⟩, ?_, ?_, sortedSeries_sorted l,
    hperm, ?_, ?_, ?_⟩
  · unfold calculateP90
    rw [sortE_durationLess]
    simp [List.getElem?_eq_getElem hidx, Except.map]
  · simp [List.getElem?_eq_getElem hidx]
  · exact hperm.mem_iff.mp (List.get_mem _ _ _)
  · intro h10 x hx
    have hx' : x ∈ sortedSeries l := hperm.mem_iff.mpr hx
    obtain ⟨⟨m, hm⟩, rfl⟩ := List.mem_iff_get.1 hx'
    exact (sortedSeries_sorted l).rel_get_of_le (by
      simp only [Fin.mk_le_mk]
      omega)
  · intro a ha
    subst ha
    exact List.eq_of_mem_singleton (List.get_mem _ _ _)

/-- Witness for C1 at the concrete series [5, 1, 3] (sorted: [1, 3, 5],
index floor(0.9 * 3) = 2, value 5). -/
theorem calculateP90_selects_floor_index_witness :
    ∃ v,
      (calculateP90 durationLess [5, 1, 3]).map Prod.fst = .ok v ∧
      (sortedSeries [5, 1, 3])[9 * ([5, 1, 3] : List Int).length / 10]? = some v ∧
      (sortedSeries [5, 1, 3]).Sorted (· ≤ ·) ∧
      (sortedSeries [5, 1, 3]).Perm [5, 1, 3] ∧
      v ∈ ([5, 1, 3] : List Int) ∧
      (([5, 1, 3] : List Int).length = 10 → ∀ x ∈ ([5, 1, 3] : List Int), x ≤ v) ∧
      (∀ a, ([5, 1, 3] : List Int) = [a] → v = a) :=
  calculateP90_selects_floor_index [5, 1, 3] (by decide)

/-- C2 counterexample: on the caller's series [2, 1], `calculateP90` ends
with the caller's slice holding [1, 2]: the in-place `sort.Slice` mutates
the sequence passed in, so the series is not left unchanged. -/
theorem calculateP90_mutates_caller_series :
    calculateP90 durationLess [2, 1] = .ok (2, [1, 2]) ∧ ([1, 2] : List Int) ≠ [2, 1] := by
  constructor
  · rfl
  · decide

/-- C2 (amended): `calculateP90` does not sort a copy: on every non-empty
duration series it mutates the caller's slice in place to the ascending
sorted permutation of its previous contents (the multiset of samples is
preserved, the order is not). -/
theorem calculateP90_sorts_caller_in_place (l : List Int) (h : l ≠ []) :
    ∃ v, calculateP90 durationLess l = .ok (v, sortedSeries l) ∧
      (sortedSeries l).Perm l ∧ (sortedSeries l).Sorted (· ≤ ·) := by
  have hperm := sortedSeries_perm l
  have hidx : 9 * l.length / 10 < (sortedSeries l).length := by
    rw [hperm.length_eq]
    have : 0 < l.length := List.length_pos.mpr h
    omega
  refine ⟨(sortedSeries l).get ⟨9 * l.length / 10, hidx⟩, ?_, hperm, sortedSeries_sorted l⟩
  unfold calculateP90
  rw [sortE_durationLess]
  simp [List.getElem?_eq_getElem hidx]

/-- Witness for the amended C2 at the concrete series [9, 4]. -/
theorem calculateP90_sorts_caller_in_place_witness :
    ∃ v, calculateP90 durationLess [9, 4] = .ok (v, sortedSeries [9, 4]) ∧
      (sortedSeries [9, 4]).Perm [9, 4] ∧ (sortedSeries [9, 4]).Sorted (· ≤ ·) :=
  calculateP90_sorts_caller_in_place [9, 4] (by decide)

/-- C9: `calculateP90` is order-independent: on any two series that are
permutations of each other it selects the same value. -/
theorem calculateP90_perm_invariant (l l' : List Int) (h : l.Perm l') :
    (calculateP90 durationLess l).map Prod.fst
      = (calculateP90 durationLess l').map Prod.fst := by
  have hsort : sortedSeries l = sortedSeries l' :=
    List.eq_of_perm_of_sorted
      ((sortedSeries_perm l).trans (h.trans (sortedSeries_perm l').symm))
      (sortedSeries_sorted l) (sortedSeries_sorted l')
  unfold calculateP90
  rw [sortE_durationLess, sortE_durationLess, hsort, h.length_eq]

/-- Witness for C9 at the concrete permutation pair [3, 1, 2] and [2, 3, 1]. -/
theorem calculateP90_perm_invariant_witness :
    (calculateP90 durationLess [3, 1, 2]).map Prod.fst
      = (calculateP90 durationLess [2, 3, 1]).map Prod.fst :=
  calculateP90_perm_invariant [3, 1, 2] [2, 3, 1] (by decide)

theorem wrap64_eq_self (x : Int) (h1 : -9223372036854775808 ≤ x)
    (h2 : x < 9223372036854775808) : wrap64 x = x := by
  unfold wrap64
  omega

theorem foldl_wrap64_eq_sum (l : List Int) :
    ∀ a : Int,
      (∀ k ≤ l.length, -9223372036854775808 ≤ a + (l.take k).sum ∧
        a + (l.take k).sum < 9223372036854775808) →
      l.foldl (fun acc t => wrap64 (acc + t)) a = a + l.sum := by
  induction l with
  | nil =>
    intro a _
    simp
  | cons b t ih =>
    intro a hk
    have h1 := hk 1 (by simp)
    rw [List.take_succ_cons, List.take_zero] at h1
    simp only [List.sum_cons, List.sum_nil, add_zero] at h1
    simp only [List.foldl]
    rw [wrap64_eq_self (a + b) h1.1 h1.2]
    rw [ih (a + b) ?_]
    · rw [List.sum_cons]
      ring
    · intro k hkk
      have h2 := hk (k + 1) (by simp only [List.length_cons]; omega)
      rw [List.take_succ_cons] at h2
      simp only [List.sum_cons] at h2
      constructor <;> omega

/-- C5 counterexample: `calculateAverage` accumulates `time.Duration`
values in an `int64`, which wraps: on the two durations `2 ^ 62` and
`2 ^ 62` (the literal is `4611686018427387904`) the accumulated total wraps
to `-2 ^ 63` and the computed average is `-2 ^ 62`, not the true total sum
divided by the count (`2 ^ 62`). -/
theorem calculateAverage_wrap_counterexample :
    calculateAverage [4611686018427387904, 4611686018427387904]
        = .ok (-4611686018427387904) ∧
    Int.tdiv ([4611686018427387904, 4611686018427387904] : List Int).sum 2
        = 4611686018427387904 ∧
    calculateAverage [4611686018427387904, 4611686018427387904]
        ≠ .ok (Int.tdiv ([4611686018427387904, 4611686018427387904] : List Int).sum
            (([4611686018427387904, 4611686018427387904] : List Int).length : Int)) := by
  refine ⟨by decide, by decide, by decide⟩

/-- C5 (amended): for every non-empty duration series whose running
`int64` totals never overflow (every prefix sum lies in
`[-2 ^ 63, 2 ^ 63)`), `calculateAverage` is the total sum divided by the
count using truncating (toward-zero) integer division at nanosecond
precision, exact whenever the count divides the sum; when the accumulator
does overflow, the wrapped total is divided instead of the true sum. -/
theorem calculateAverage_sum_div_count (times : List Int) (h : times ≠ [])
    (hrange : ∀ k ≤ times.length,
      -9223372036854775808 ≤ (times.take k).sum ∧
        (times.take k).sum < 9223372036854775808) :
    calculateAverage times = .ok (Int.tdiv times.sum (times.length : Int)) ∧
    ((times.length : Int) ∣ times.sum →
      (times.length : Int) * Int.tdiv times.sum (times.length : Int) = times.sum) := by
  constructor
  · unfold calculateAverage
    rw [if_neg (by simpa using h)]
    rw [show times.foldl (fun acc t => wrap64 (acc + t)) 0 = times.sum by
      have hfold := foldl_wrap64_eq_sum times 0 (by
        intro k hk
        simpa using hrange k hk)
      simpa using hfold]
  · intro hdvd
    exact Int.mul_tdiv_cancel' hdvd

/-- Witness for the amended C5 at the concrete series [10, 20, 31]
(sum 61, count 3, truncated average 20; no prefix sum overflows). -/
theorem calculateAverage_sum_div_count_witness :
    calculateAverage [10, 20, 31]
        = .ok (Int.tdiv ([10, 20, 31] : List Int).sum (([10, 20, 31] : List Int).length : Int)) ∧
    ((([10, 20, 31] : List Int).length : Int) ∣ ([10, 20, 31] : List Int).sum →
      ((([10, 20, 31] : List Int).length : Int))
          * Int.tdiv ([10, 20, 31] : List Int).sum (([10, 20, 31] : List Int).length : Int)
        = ([10, 20, 31] : List Int).sum) :=
  calculateAverage_sum_div_count [10, 20, 31] (by decide) (by decide)

/-- C10: with an element type outside the type switch (neither
`time.Duration` nor `float64`) `calculateP90` panics with "Unsupported
type" whenever the slice has at least two elements, because the sort then
invokes the comparator; a single-element slice of any type (any comparator)
is returned as-is, the comparator never being invoked. -/
theorem calculateP90_unsupported_type :
    (∀ (α : Type) (less : α → α → Except String Bool) (a : α),
      calculateP90 less [a] = .ok (a, [a])) ∧
    (∀ (α : Type) (values : List α), 2 ≤ values.length →
      calculateP90 unsupportedLess values = .error "Unsupported type") := by
  constructor
  · intro α less a
    simp [calculateP90, sortE, insertE]
  · intro α values h
    match values with
    | a :: b :: rest =>
      unfold calculateP90
      rw [sortE_unsupportedLess]

/-- Witness for C10: a two-element boolean slice panics, a one-element
boolean slice is returned unchanged. -/
theorem calculateP90_unsupported_type_witness :
    calculateP90 unsupportedLess [true] = .ok (true, [true]) ∧
    calculateP90 unsupportedLess [true, false] = .error "Unsupported type" :=
  ⟨calculateP90_unsupported_type.1 Bool unsupportedLess true,
    calculateP90_unsupported_type.2 Bool [true, false] (by decide)⟩

theorem range_map_shift {β : Type} (f : Nat → β) (k i : Nat) :
    (List.range (k + 1)).map (fun j => f (i + j))
      = f i :: (List.range k).map (fun j => f (i + 1 + j)) := by
  rw [List.range_succ_eq_map, List.map_cons, List.map_map]
  simp only [Nat.add_zero]
  have hfun : ((fun j => f (i + j)) ∘ Nat.succ) = fun j => f (i + 1 + j) := by
    funext j
    simp only [Function.comp_apply]
    congr 1
    omega
  rw [hfun]

theorem uploadFrom_ok_spec (dataOf : Nat → List Nat) (putErr : Nat → Option String)
    (elapsed : Nat → Int) (fs : Int) :
    ∀ (k i : Nat) (store : Store) (ts : List Int) (sps : List GoFloat) (st : Store),
      uploadFrom dataOf putErr elapsed fs i k store = .ok (ts, sps, st) →
      ts = (List.range k).map (fun j => elapsed (i + j)) ∧
      sps = (List.range k).map (fun j => speedMBps fs (elapsed (i + j))) ∧
      st = writesFrom dataOf i k ++ store := by
  intro k
  induction k with
  | zero =>
    intro i store ts sps st h
    simp only [uploadFrom] at h
    obtain ⟨h1, h2, h3⟩ := by simpa using h
    subst h1
    subst h2
    subst h3
    simp [writesFrom]
  | succ k ih =>
    intro i store ts sps st h
    simp only [uploadFrom] at h
    cases hput : putErr i with
    | some e => simp [hput] at h
    | none =>
      rw [hput] at h
      cases hrec : uploadFrom dataOf putErr elapsed fs (i + 1) k
          ((uploadObjectKey i, dataOf i) :: store) with
      | error e => simp [hrec] at h
      | ok tpl =>
        obtain ⟨ts', sps', st'⟩ := tpl
        rw [hrec] at h
        obtain ⟨h1, h2, h3⟩ := by simpa using h
        obtain ⟨ihts, ihsps, ihst⟩ := ih (i + 1) _ ts' sps' st' hrec
        subst h1
        subst h2
        subst h3
        refine ⟨?_, ?_, ?_⟩
        · rw [ihts, range_map_shift elapsed]
        · rw [ihsps, range_map_shift (fun n => speedMBps fs (elapsed n))]
        · rw [ihst]
          simp [writesFrom]

theorem downloadFrom_ok_spec (getObject : String → Except String (List Nat))
    (elapsed : Nat → Int) (exp : Int) :
    ∀ (k i : Nat) (ts : List Int) (sps : List GoFloat),
      downloadFrom getObject elapsed exp i k = .ok (ts, sps) →
      ts.length = k ∧ sps.length = k ∧
      ∀ j < k, ∃ payload, getObject (downloadObjectKey (i + j)) = .ok payload ∧
        (payload.length : Int) = exp ∧
        ts[j]? = some (elapsed (i + j)) ∧
        sps[j]? = some (speedMBps payload.length (elapsed (i + j))) := by
  intro k
  induction k with
  | zero =>
    intro i ts sps h
    simp only [downloadFrom] at h
    obtain ⟨h1, h2⟩ := by simpa using h
    subst h1
    subst h2
    exact ⟨rfl, rfl, by omega⟩
  | succ k ih =>
    intro i ts sps h
    simp only [downloadFrom] at h
    cases hget : getObject (downloadObjectKey i) with
    | error e => simp [hget] at h
    | ok payload =>
      simp only [hget] at h
      by_cases hsize : (payload.length : Int) ≠ exp
      · rw [if_pos hsize] at h
        cases h
      · rw [if_neg hsize] at h
        push_neg at hsize
        cases hrec : downloadFrom getObject elapsed exp (i + 1) k with
        | error e => simp [hrec] at h
        | ok tpl =>
          obtain ⟨ts', sps'⟩ := tpl
          rw [hrec] at h
          obtain ⟨h1, h2⟩ := by simpa using h
          obtain ⟨ihl1, ihl2, ihspec⟩ := ih (i + 1) ts' sps' hrec
          subst h1
          subst h2
          refine ⟨by simp [ihl1], by simp [ihl2], ?_⟩
          intro j hj
          cases j with
          | zero =>
            refine ⟨payload, by simpa using hget, hsize, ?_, ?_⟩ <;> simp
          | succ m =>
            obtain ⟨payload', hp1, hp2, hp3, hp4⟩ := ihspec m (by omega)
            refine ⟨payload', ?_, hp2, ?_, ?_⟩
            · rw [show i + (m + 1) = i + 1 + m by omega]
              exact hp1
            · rw [show i + (m + 1) = i + 1 + m by omega]
              simpa using hp3
            · rw [show i + (m + 1) = i + 1 + m by omega]
              simpa using hp4

theorem lookup_append_some {β : Type} (l₁ l₂ : List (String × β)) (a : String) (v : β)
    (h : l₁.lookup a = some v) : (l₁ ++ l₂).lookup a = some v := by
  induction l₁ with
  | nil => simp [List.lookup] at h
  | cons p t ih =>
    obtain ⟨key, value⟩ := p
    simp only [List.lookup, List.cons_append] at h ⊢
    cases hbeq : a == key with
    | true => rw [hbeq] at h; simpa using h
    | false => rw [hbeq] at h; exact ih h

theorem lookup_append_none {β : Type} (l₁ l₂ : List (String × β)) (a : String)
    (h : l₁.lookup a = none) : (l₁ ++ l₂).lookup a = l₂.lookup a := by
  induction l₁ with
  | nil => rfl
  | cons p t ih =>
    obtain ⟨key, value⟩ := p
    simp only [List.lookup, List.cons_append] at h ⊢
    cases hbeq : a == key with
    | true => rw [hbeq] at h; simp at h
    | false => rw [hbeq] at h; exact ih h

theorem writesFrom_lookup_lt (dataOf : Nat → List Nat) :
    ∀ (k i j : Nat), j < i →
      (writesFrom dataOf i k).lookup (uploadObjectKey j) = none := by
  intro k
  induction k with
  | zero => intro i j hj; rfl
  | succ k ih =>
    intro i j hj
    have hne : uploadObjectKey j ≠ uploadObjectKey i := by
      intro hcontr
      have := uploadObjectKey_injective hcontr
      omega
    simp only [writesFrom]
    rw [lookup_append_none _ _ _ (ih (i + 1) j (by omega))]
    simp only [List.lookup]
    rw [beq_eq_false_iff_ne.mpr hne]

theorem writesFrom_lookup (dataOf : Nat → List Nat) :
    ∀ (k i j : Nat), i ≤ j → j < i + k →
      (writesFrom dataOf i k).lookup (uploadObjectKey j) = some (dataOf j) := by
  intro k
  induction k with
  | zero => intro i j h1 h2; omega
  | succ k ih =>
    intro i j h1 h2
    simp only [writesFrom]
    by_cases hji : j = i
    · subst hji
      rw [lookup_append_none _ _ _ (writesFrom_lookup_lt dataOf k (j + 1) j (by omega))]
      simp [List.lookup]
    · exact lookup_append_some _ _ _ _ (ih (i + 1) j (by omega) (by omega))

/-- C3 counterexample: with a transport-error-free backend and a clock that
reports zero elapsed time for the single trial, `uploadFiles` completes
successfully and the speed series contains `+Inf`: the zero elapsed time is
not treated as an internal error and the infinite speed sample enters the
series silently. -/
theorem zero_elapsed_infinite_speed_unguarded :
    uploadFiles (fun _ => [7]) (fun _ => none) (fun _ => 0) 1 1
      = .ok ([0], [GoFloat.posInf], [("file-1.dat", [7])]) := by
  decide

/-- C3 (amended): the elapsed time of a trial is used for the speed
computation without any positivity check: each successful upload trial's
speed sample is exactly `speedMBps fileSize elapsed`, so a zero elapsed
time on a positive-size trial puts a silent `+Inf` sample into the series
(upload and download alike) instead of raising an internal error. -/
theorem speed_zero_elapsed_not_guarded :
    (∀ (dataOf : Nat → List Nat) (putErr : Nat → Option String) (elapsed : Nat → Int)
      (fs : Int) (N : Nat) (ts : List Int) (sps : List GoFloat) (st : Store),
      uploadFiles dataOf putErr elapsed fs N = .ok (ts, sps, st) →
      ∀ j < N, sps[j]? = some (speedMBps fs (elapsed (1 + j))) ∧
        (elapsed (1 + j) = 0 → 0 < fs → sps[j]? = some GoFloat.posInf)) ∧
    (∀ (getObject : String → Except String (List Nat)) (elapsed : Nat → Int)
      (exp : Int) (N : Nat) (ts : List Int) (sps : List GoFloat),
      downloadFiles getObject elapsed exp N = .ok (ts, sps) →
      ∀ j < N, elapsed (1 + j) = 0 → 0 < exp →
        sps[j]? = some GoFloat.posInf) := by
  constructor
  · intro dataOf putErr elapsed fs N ts sps st h j hj
    obtain ⟨-, h2, -⟩ := uploadFrom_ok_spec dataOf putErr elapsed fs N 1 [] ts sps st h
    have hsp : sps[j]? = some (speedMBps fs (elapsed (1 + j))) := by
      rw [h2]
      simp [List.getElem?_range, hj]
    refine ⟨hsp, fun hzero hfs => ?_⟩
    rw [hsp, hzero]
    simp [speedMBps, hfs]
  · intro getObject elapsed exp N ts sps h j hj hzero hexp
    obtain ⟨-, -, hspec⟩ := downloadFrom_ok_spec getObject elapsed exp N 1 ts sps h
    obtain ⟨payload, -, hplen, -, hp4⟩ := hspec j hj
    rw [hp4, hzero]
    have hlen : (0 : Int) < (payload.length : Int) := by rw [hplen]; exact hexp
    simp [speedMBps, hlen]

/-- Witness for the amended C3: a single upload trial of size 2 with zero
elapsed time records the `+Inf` speed sample. -/
theorem speed_zero_elapsed_not_guarded_witness :
    ([GoFloat.posInf] : List GoFloat)[0]? = some (speedMBps 2 0) ∧
    ((0 : Int) = 0 → (0 : Int) < 2 →
      ([GoFloat.posInf] : List GoFloat)[0]? = some GoFloat.posInf) :=
  speed_zero_elapsed_not_guarded.1 (fun _ => [5]) (fun _ => none) (fun _ => 0) 2 1
    [0] [GoFloat.posInf] [("file-1.dat", [5])] (by decide) 0 (by decide)

/-- C4: every download trial verifies the received byte count against
`expectedFileSize`: a successful run implies every trial received exactly
the expected number of bytes and its speed sample was computed from the
actually received count; conversely any trial whose received count differs
from the expected size makes the whole run abort with an error (no partial
series is produced). -/
theorem downloadFiles_verifies_size :
    (∀ (getObject : String → Except String (List Nat)) (elapsed : Nat → Int)
      (exp : Int) (N : Nat) (ts : List Int) (sps : List GoFloat),
      downloadFiles getObject elapsed exp N = .ok (ts, sps) →
      ∀ j < N, ∃ payload, getObject (downloadObjectKey (1 + j)) = .ok payload ∧
        (payload.length : Int) = exp ∧
        sps[j]? = some (speedMBps payload.length (elapsed (1 + j)))) ∧
    (∀ (getObject : String → Except String (List Nat)) (elapsed : Nat → Int)
      (exp : Int) (N : Nat),
      (∃ i, 1 ≤ i ∧ i ≤ N ∧ ∃ payload, getObject (downloadObjectKey i) = .ok payload ∧
        (payload.length : Int) ≠ exp) →
      ∃ e, downloadFiles getObject elapsed exp N = .error e) := by
  constructor
  · intro getObject elapsed exp N ts sps h j hj
    obtain ⟨-, -, hspec⟩ := downloadFrom_ok_spec getObject elapsed exp N 1 ts sps h
    obtain ⟨payload, hp1, hp2, -, hp4⟩ := hspec j hj
    exact ⟨payload, hp1, hp2, hp4⟩
  · rintro getObject elapsed exp N ⟨i, hi1, hi2, payload, hget, hne⟩
    cases hD : downloadFiles getObject elapsed exp N with
    | error e => exact ⟨e, rfl⟩
    | ok tpl =>
      obtain ⟨ts, sps⟩ := tpl
      exfalso
      obtain ⟨-, -, hspec⟩ := downloadFrom_ok_spec getObject elapsed exp N 1 ts sps hD
      obtain ⟨payload', hp1, hp2, -, -⟩ := hspec (i - 1) (by omega)
      rw [show 1 + (i - 1) = i by omega] at hp1
      rw [hget] at hp1
      apply hne
      injection hp1 with hpp
      rw [hpp]
      exact hp2

/-- Witness for C4: a matching 2-byte payload passes verification; a 1-byte
payload against an expected size of 2 aborts the run. -/
theorem downloadFiles_verifies_size_witness :
    (∃ payload, (Except.ok [0, 0] : Except String (List Nat)) = .ok payload ∧
      (payload.length : Int) = 2 ∧
      ([GoFloat.posInf] : List GoFloat)[0]? = some (speedMBps payload.length 0)) ∧
    (∃ e, downloadFiles (fun _ => .ok [0]) (fun _ => 0) 2 1 = .error e) :=
  ⟨downloadFiles_verifies_size.1 (fun _ => .ok [0, 0]) (fun _ => 0) 2 1 [0] [GoFloat.posInf]
      (by decide) 0 (by decide),
    downloadFiles_verifies_size.2 (fun _ => .ok [0]) (fun _ => 0) 2 1
      ⟨1, by decide, by decide, [0], rfl, by decide⟩⟩

/-- C7: the object key is derived deterministically from the trial index by
the same rendering in both phases, and after a successful upload phase the
store maps the key of trial `i` to exactly the payload written by upload
trial `i`, so download trial `i` (which fetches `downloadObjectKey i`)
receives the object produced by its paired upload. -/
theorem download_key_pairs_upload_key :
    (∀ i, uploadObjectKey i = downloadObjectKey i) ∧
    (∀ (dataOf : Nat → List Nat) (putErr : Nat → Option String) (elapsed : Nat → Int)
      (fs : Int) (N : Nat) (ts : List Int) (sps : List GoFloat) (st : Store),
      uploadFiles dataOf putErr elapsed fs N = .ok (ts, sps, st) →
      ∀ i, 1 ≤ i → i ≤ N →
        storeGet st (downloadObjectKey i) = .ok (dataOf i)) := by
  constructor
  · intro i
    rfl
  · intro dataOf putErr elapsed fs N ts sps st h i h1 h2
    obtain ⟨-, -, hst⟩ := uploadFrom_ok_spec dataOf putErr elapsed fs N 1 [] ts sps st h
    rw [List.append_nil] at hst
    subst hst
    have hkey : downloadObjectKey i = uploadObjectKey i := rfl
    simp [storeGet, hkey, writesFrom_lookup dataOf N 1 i h1 (by omega)]

/-- Witness for C7: after two upload trials writing [1] and [2], the store
resolves the download key of trial 1 to the payload of upload trial 1. -/
theorem download_key_pairs_upload_key_witness :
    storeGet [("file-2.dat", [2]), ("file-1.dat", [1])] (downloadObjectKey 1) = .ok [1] :=
  download_key_pairs_upload_key.2 (fun i => [i]) (fun _ => none) (fun _ => 0) 1 2
    [0, 0] [GoFloat.posInf, GoFloat.posInf] [("file-2.dat", [2]), ("file-1.dat", [1])]
    (by decide) 1 (by decide) (by decide)

/-- C8: whenever all backend operations succeed, the upload phase and the
download phase each produce duration and speed series of length exactly
`trialCount`. -/
theorem sample_series_length_eq_trialCount :
    (∀ (dataOf : Nat → List Nat) (putErr : Nat → Option String) (elapsed : Nat → Int)
      (fs : Int) (N : Nat) (ts : List Int) (sps : List GoFloat) (st : Store),
      uploadFiles dataOf putErr elapsed fs N = .ok (ts, sps, st) →
      ts.length = N ∧ sps.length = N) ∧
    (∀ (getObject : String → Except String (List Nat)) (elapsed : Nat → Int)
      (exp : Int) (N : Nat) (ts : List Int) (sps : List GoFloat),
      downloadFiles getObject elapsed exp N = .ok (ts, sps) →
      ts.length = N ∧ sps.length = N) := by
  constructor
  · intro dataOf putErr elapsed fs N ts sps st h
    obtain ⟨h1, h2, -⟩ := uploadFrom_ok_spec dataOf putErr elapsed fs N 1 [] ts sps st h
    constructor
    · simp [h1]
    · simp [h2]
  · intro getObject elapsed exp N ts sps h
    obtain ⟨h1, h2, -⟩ := downloadFrom_ok_spec getObject elapsed exp N 1 ts sps h
    exact ⟨h1, h2⟩

/-- Witness for C8 at a concrete 2-trial upload run and 1-trial download
run. -/
theorem sample_series_length_eq_trialCount_witness :
    (([0, 0] : List Int).length = 2 ∧ ([GoFloat.nan, GoFloat.nan] : List GoFloat).length = 2) ∧
    (([0] : List Int).length = 1 ∧ ([GoFloat.nan] : List GoFloat).length = 1) :=
  ⟨sample_series_length_eq_trialCount.1 (fun _ => []) (fun _ => none) (fun _ => 0) 0 2
      [0, 0] [GoFloat.nan, GoFloat.nan] [("file-2.dat", []), ("file-1.dat", [])] (by decide),
    sample_series_length_eq_trialCount.2 (fun _ => .ok []) (fun _ => 0) 0 1 [0] [GoFloat.nan]
      (by decide)⟩

/-- C6 counterexample: `main` accepts any configuration with non-empty
endpoint, access key, secret key and bucket name regardless of the trial
count; with `trials = 0` the phases succeed with empty series, which then
reach the statistics stage and make `calculateAverage` fail: the empty
series case is reachable, not prevented by any upstream `trialCount ≥ 1`
enforcement. -/
theorem empty_series_reachable_with_zero_trials :
    configMissing "e" "a" "s" "b" = false ∧
    uploadFiles (fun _ => []) (fun _ => none) (fun _ => 1) 0 0 = .ok ([], [], []) ∧
    calculateAverage [] = .error "integer divide by zero" := by
  refine ⟨by decide, by decide, by decide⟩

/-- C6 (amended): `calculateAverage` and `calculateP90` do fail on empty
input, but no `trialCount ≥ 1` validation exists upstream (`main` checks
only the four string parameters), so with `trials = 0` empty series reach
the statistics stage; the series of a successful upload phase is empty
exactly when `trialCount = 0`. -/
theorem empty_series_fails_and_is_reachable :
    calculateAverage [] = .error "integer divide by zero" ∧
    calculateP90 durationLess ([] : List Int) = .error "index out of range" ∧
    (∀ (dataOf : Nat → List Nat) (putErr : Nat → Option String) (elapsed : Nat → Int)
      (fs : Int) (N : Nat) (ts : List Int) (sps : List GoFloat) (st : Store),
      uploadFiles dataOf putErr elapsed fs N = .ok (ts, sps, st) → (ts = [] ↔ N = 0)) := by
  refine ⟨by decide, by decide, ?_⟩
  intro dataOf putErr elapsed fs N ts sps st h
  obtain ⟨h1, -, -⟩ := uploadFrom_ok_spec dataOf putErr elapsed fs N 1 [] ts sps st h
  constructor
  · intro hts
    rw [hts] at h1
    have := congrArg List.length h1
    simpa using this.symm
  · intro hN
    subst hN
    simpa using h1

/-- Witness for the amended C6: a successful single-trial run has a
non-empty duration series. -/
theorem empty_series_fails_and_is_reachable_witness :
    (([0] : List Int) = [] ↔ 1 = 0) :=
  empty_series_fails_and_is_reachable.2.2 (fun _ => []) (fun _ => none) (fun _ => 0) 0 1
    [0] [GoFloat.nan] [("file-1.dat", [])] (by decide)
